import Mathlib

/-! Verification of the feynmanV2 real-time tutoring gateway.

A shallow embedding of the core of the repository, with theorems checking its
natural-language specification.  The embedding covers:

* the learning-state data model and the tool-bridge mutation
  (`crates/core/src/topic.rs`, `crates/core/src/agent.rs`);
* the state-change notification publish
  (`agent.rs` lines 181-187 together with the bounded channel of capacity 8
  created in `services/api/src/ws/session.rs` line 168);
* the PCM16/base64 audio codec (`services/api/src/audio_utils.rs`),
  modelled over `ℚ` — on the relevant range every floating-point operation
  involved (scaling by the power of two 32768, clamping at integer bounds,
  exact conversion of 16-bit integers) is exact, so the rational model is
  exact;
* the per-connection session loop (`services/api/src/ws/session.rs`);
* the ReAct cycle (`services/api/src/ws/cycle.rs`);
* the two voice provider bridges
  (`services/api/src/ws/provider/gemini.rs`, `.../openai.rs`).

Rust `HashMap<String, SubTopic>` is modelled as an association list with
replace-on-insert semantics; only lookup/insert/remove/contains are used by
the source, so the models agree extensionally.  Result-message strings keep
the source text except that the decorative single-quote characters of the
Rust format strings are omitted.
-/

deriving instance DecidableEq for Except

namespace Feynman

/-! ## Core data model: `crates/core/src/topic.rs` -/

/-- The `SubTopic` from `topic.rs`: a name and three independent criteria. -/
structure SubTopic where
  name : String
  has_definition : Bool
  has_mechanism : Bool
  has_example : Bool
deriving DecidableEq

/-- The `SubTopic::new`: a fresh, fully incomplete subtopic. -/
def SubTopic.new (name : String) : SubTopic :=
  ⟨name, false, false, false⟩

/-- The `SubTopic::is_complete`: all three criteria hold. -/
def SubTopic.is_complete (st : SubTopic) : Bool :=
  st.has_definition && st.has_mechanism && st.has_example

/-! ## Association-list model of `HashMap<String, SubTopic>` -/

/-- The map type underlying both subtopic collections. -/
abbrev SubtopicMap := List (String × SubTopic)

/-- The `HashMap::get` on the model. -/
def mapLookup : SubtopicMap → String → Option SubTopic
  | [], _ => none
  | (k, v) :: rest, key => if k = key then some v else mapLookup rest key

/-- The `HashMap::contains_key` on the model. -/
def mapContains (m : SubtopicMap) (key : String) : Bool :=
  (mapLookup m key).isSome

/-- The `HashMap::insert` on the model: replace an existing binding, else append. -/
def mapInsert : SubtopicMap → String → SubTopic → SubtopicMap
  | [], key, v => [(key, v)]
  | (k, w) :: rest, key, v =>
    if k = key then (key, v) :: rest else (k, w) :: mapInsert rest key v

/-- The `HashMap::remove` on the model: drop the binding for the key. -/
def mapErase : SubtopicMap → String → SubtopicMap
  | [], _ => []
  | (k, w) :: rest, key => if k = key then rest else (k, w) :: mapErase rest key

/-- Well-formedness of the model: each key bound at most once. -/
def NodupKeys (m : SubtopicMap) : Prop :=
  (m.map Prod.fst).Nodup

/-! ## `FeynmanAgent` and `update_subtopic_status`: `crates/core/src/agent.rs` -/

/-- The `FeynmanAgent` from `agent.rs`. -/
structure FeynmanAgent where
  main_topic : String
  covered_subtopics : SubtopicMap
  incomplete_subtopics : SubtopicMap
deriving DecidableEq

/-- The `FeynmanAgent::new`: all subtopics start incomplete (`collect` on a
`HashMap` keeps the last binding for a duplicated name, matching a fold of
replace-on-insert). -/
def FeynmanAgent.new (main_topic : String) (subtopics : List SubTopic) : FeynmanAgent :=
  { main_topic := main_topic
    covered_subtopics := []
    incomplete_subtopics :=
      subtopics.foldl (fun m st => mapInsert m st.name st) [] }

/-- The `UpdateSubtopicStatusArgs` from `agent.rs`. -/
structure UpdateSubtopicStatusArgs where
  subtopic_name : String
  criterion : String
  is_covered : Bool
deriving DecidableEq

/-- The three valid criteria. -/
inductive Criterion where
  | definition
  | mechanism
  | exampleCrit
deriving DecidableEq

/-- The `str::to_lowercase`, modelled as character-wise lowercasing.  The three
keywords being matched are ASCII, where Rust and `Char.toLower` agree;
Unicode multi-character lowerings differ but cannot produce one of the
keywords from non-ASCII input in a way that matters to any claim. -/
def strToLower (s : String) : String :=
  String.mk (s.data.map Char.toLower)

/-- The `match args.0.criterion.to_lowercase().as_str()` dispatch in
`update_subtopic_status` (lowercasing makes the match case-insensitive). -/
def criterionOf (s : String) : Option Criterion :=
  if strToLower s = "definition" then some Criterion.definition
  else if strToLower s = "mechanism" then some Criterion.mechanism
  else if strToLower s = "example" then some Criterion.exampleCrit
  else none

/-- Writing one criterion flag, as the three `match` arms do. -/
def SubTopic.setCriterion (st : SubTopic) : Criterion → Bool → SubTopic
  | Criterion.definition, b => { st with has_definition := b }
  | Criterion.mechanism, b => { st with has_mechanism := b }
  | Criterion.exampleCrit, b => { st with has_example := b }

/-- The `format!("Invalid criterion: '{}'", ...)`. -/
def invalidCriterionMsg (criterion : String) : String :=
  "Invalid criterion: " ++ criterion

/-- The `format!("OK. Subtopic '{}' is now fully covered.", ...)`. -/
def nowFullyCoveredMsg (name : String) : String :=
  "OK. Subtopic " ++ name ++ " is now fully covered."

/-- The `format!("OK. Updated criterion '{}' for subtopic '{}'.", ...)`. -/
def updatedCriterionMsg (criterion name : String) : String :=
  "OK. Updated criterion " ++ criterion ++ " for subtopic " ++ name ++ "."

/-- The `format!("OK. Subtopic '{}' is already fully covered.", ...)`. -/
def alreadyCoveredMsg (name : String) : String :=
  "OK. Subtopic " ++ name ++ " is already fully covered."

/-- The `format!("Subtopic '{}' not found.", ...)`. -/
def notFoundMsg (name : String) : String :=
  "Subtopic " ++ name ++ " not found."

/-- The `FeynmanService::update_subtopic_status` (`agent.rs` lines 136-188), as a
pure state transformer: the returned pair is (tool result, post state).

Faithful to the source: the incomplete map is consulted first; an invalid
criterion returns early (before any flag write); a flag write that completes
the subtopic removes it from `incomplete_subtopics` and inserts the updated
value into `covered_subtopics` in the same call (the `else` arm of the
`remove` is unreachable because `get_mut` just succeeded under the same
lock); a name found only in `covered_subtopics` is acknowledged without any
mutation; an unknown name is an error without any mutation. -/
def update_subtopic_status (agent : FeynmanAgent) (args : UpdateSubtopicStatusArgs) :
    Except String String × FeynmanAgent :=
  match mapLookup agent.incomplete_subtopics args.subtopic_name with
  | some subtopic =>
    match criterionOf args.criterion with
    | none => (Except.error (invalidCriterionMsg args.criterion), agent)
    | some c =>
      let updated := subtopic.setCriterion c args.is_covered
      if updated.is_complete then
        (Except.ok (nowFullyCoveredMsg args.subtopic_name),
          { agent with
            incomplete_subtopics := mapErase agent.incomplete_subtopics args.subtopic_name
            covered_subtopics := mapInsert agent.covered_subtopics args.subtopic_name updated })
      else
        (Except.ok (updatedCriterionMsg args.criterion args.subtopic_name),
          { agent with
            incomplete_subtopics := mapInsert agent.incomplete_subtopics args.subtopic_name updated })
  | none =>
    if mapContains agent.covered_subtopics args.subtopic_name then
      (Except.ok (alreadyCoveredMsg args.subtopic_name), agent)
    else
      (Except.error (notFoundMsg args.subtopic_name), agent)

/-- State invariant: both maps have unique keys, and no name is bound in
both maps at once. -/
def Inv (s : FeynmanAgent) : Prop :=
  NodupKeys s.covered_subtopics ∧ NodupKeys s.incomplete_subtopics ∧
    ∀ k ∈ s.covered_subtopics.map Prod.fst, k ∉ s.incomplete_subtopics.map Prod.fst

/-- States reachable through the Tool Bridge: created by `FeynmanAgent::new`
and mutated only by `update_subtopic_status` (the only mutating operation;
`get_session_status` and `conclude_session` do not touch the state). -/
inductive Reachable : FeynmanAgent → Prop where
  | init (main_topic : String) (subtopics : List SubTopic) :
      Reachable (FeynmanAgent.new main_topic subtopics)
  | step (s : FeynmanAgent) (args : UpdateSubtopicStatusArgs) :
      Reachable s → Reachable (update_subtopic_status s args).2

/-! ## State-change notification: `agent.rs` lines 181-187

`run_agent_session` (`session.rs` line 168) creates the channel with
`mpsc::channel(8)` and hands its sender to `FeynmanService`.  The model
below embeds the documented semantics of `tokio::sync::mpsc::Sender::send`:
if the receiver handle has been dropped the call returns an error
immediately (the service logs a warning and carries on); otherwise, if a
buffer slot is free, the value is enqueued and the call returns; otherwise
the `.await` suspends the caller until the receiver drains a slot. -/

/-- State of the bounded notification channel. -/
structure NotifyChannel where
  queue : List FeynmanAgent
  capacity : Nat
  receiverAlive : Bool
deriving DecidableEq

/-- How a `send(..).await` on the bounded channel resolves. -/
inductive SendOutcome where
  /-- A buffer slot was free: the snapshot is enqueued, the call returns. -/
  | delivered
  /-- The receiver was dropped: `send` fails, the service logs a warning
  (`Failed to broadcast state update: receiver dropped.`) and returns. -/
  | droppedLogged
  /-- The buffer is full and the receiver alive: the `.await` suspends the
  caller until the subscriber drains a slot. -/
  | awaitsCapacity
deriving DecidableEq

/-- The `state_tx.send(agent.clone()).await` on the bounded channel. -/
def channelSend (ch : NotifyChannel) (snapshot : FeynmanAgent) : SendOutcome × NotifyChannel :=
  if ch.receiverAlive = false then (SendOutcome.droppedLogged, ch)
  else if ch.queue.length < ch.capacity then
    (SendOutcome.delivered, { ch with queue := ch.queue ++ [snapshot] })
  else (SendOutcome.awaitsCapacity, ch)

/-- Whether the send resolves without waiting on the subscriber. -/
def channelSendReturnsImmediately (ch : NotifyChannel) (snapshot : FeynmanAgent) : Bool :=
  match (channelSend ch snapshot).1 with
  | SendOutcome.awaitsCapacity => false
  | _ => true

/-- Which calls reach the `state_tx` publish at the end of
`update_subtopic_status`: every path except the invalid-criterion
`return Err(..)`, which leaves the function before the send. -/
def notifiesOnReturn (agent : FeynmanAgent) (args : UpdateSubtopicStatusArgs) : Bool :=
  match mapLookup agent.incomplete_subtopics args.subtopic_name with
  | some _ => (criterionOf args.criterion).isSome
  | none => true

/-- The `update_subtopic_status` together with its trailing publish: the result,
the post state, the channel after the call, and the send outcome (`none`
when the early return skipped the publish). -/
def update_subtopic_status_notify (agent : FeynmanAgent) (args : UpdateSubtopicStatusArgs)
    (ch : NotifyChannel) :
    (Except String String × FeynmanAgent) × NotifyChannel × Option SendOutcome :=
  let r := update_subtopic_status agent args
  if notifiesOnReturn agent args then
    let s := channelSend ch r.2
    (r, s.2, some s.1)
  else
    (r, ch, none)

/-! ## Audio codec: `services/api/src/audio_utils.rs`

Samples are rationals; bytes are naturals below 256.  `(sample * 32768.0)`
is exact in `f32` for the inputs of interest (scaling by a power of two),
`clamp` at integer bounds is exact, the `as i16` cast truncates toward
zero, and `v as f32 / 32768.0` is exact for `|v| ≤ 32768`, so the rational
model computes the same values as the Rust code (NaN inputs aside, which
the claims exclude). -/

/-- The `i16::to_le_bytes` (two's complement, little endian). -/
def i16ToLeBytes (v : Int) : List Nat :=
  [(v % 65536).toNat % 256, (v % 65536).toNat / 256]

/-- The `i16::from_le_bytes` (two's complement, little endian). -/
def leBytesToI16 (lo hi : Nat) : Int :=
  if lo + 256 * hi < 32768 then ((lo + 256 * hi : Nat) : Int)
  else ((lo + 256 * hi : Nat) : Int) - 65536

/-- The `f32::clamp` for ordered bounds. -/
def ratClamp (q lo hi : ℚ) : ℚ :=
  max lo (min q hi)

/-- The `as i16` cast of an in-range float: truncation toward zero. -/
def ratTruncToInt (q : ℚ) : Int :=
  if 0 ≤ q then Int.floor q else Int.ceil q

/-- The encoder body of `encode_f32_to_base64_i16`:
`(sample * 32768.0).clamp(i16::MIN as f32, i16::MAX as f32) as i16`. -/
def f32_sample_to_i16 (s : ℚ) : Int :=
  ratTruncToInt (ratClamp (s * 32768) (-32768) 32767)

/-- One base64 output character: a 6-bit group or the `=` padding. -/
inductive B64Char where
  | sextet (n : Nat)
  | pad
deriving DecidableEq

/-- Standard base64 of a byte sequence (3 bytes → 4 characters, with the
usual 1- and 2-byte tail padding), as performed by
`base64::engine::general_purpose::STANDARD.encode`. -/
def b64EncodeBytes : List Nat → List B64Char
  | [] => []
  | [a] =>
    [B64Char.sextet (a / 4), B64Char.sextet (a % 4 * 16), B64Char.pad, B64Char.pad]
  | [a, b] =>
    [B64Char.sextet (a / 4), B64Char.sextet (a % 4 * 16 + b / 16),
      B64Char.sextet (b % 16 * 4), B64Char.pad]
  | a :: b :: c :: rest =>
    B64Char.sextet (a / 4) :: B64Char.sextet (a % 4 * 16 + b / 16) ::
      B64Char.sextet (b % 16 * 4 + c / 64) :: B64Char.sextet (c % 64) ::
      b64EncodeBytes rest

/-- Standard base64 decoding, `none` on a malformed input (the Rust decoder
returns an error there and the caller yields an empty sample vector). -/
def b64DecodeBytes : List B64Char → Option (List Nat)
  | [] => some []
  | [B64Char.sextet w, B64Char.sextet x, B64Char.pad, B64Char.pad] =>
    some [w * 4 + x / 16]
  | [B64Char.sextet w, B64Char.sextet x, B64Char.sextet y, B64Char.pad] =>
    some [w * 4 + x / 16, x % 16 * 16 + y / 4]
  | B64Char.sextet w :: B64Char.sextet x :: B64Char.sextet y :: B64Char.sextet z :: rest =>
    (b64DecodeBytes rest).map
      (fun ds => (w * 4 + x / 16) :: (x % 16 * 16 + y / 4) :: (y % 4 * 64 + z) :: ds)
  | _ => none

/-- The `chunks_exact(2)`: adjacent byte pairs, a trailing odd byte dropped. -/
def chunksExact2 : List Nat → List (Nat × Nat)
  | a :: b :: rest => (a, b) :: chunksExact2 rest
  | _ => []

/-- The `encode_f32_to_base64_i16` (`audio_utils.rs` lines 44-53). -/
def encode_f32_to_base64_i16 (pcm32 : List ℚ) : List B64Char :=
  b64EncodeBytes ((pcm32.map (fun s => i16ToLeBytes (f32_sample_to_i16 s))).flatten)

/-- The decoder body applied to one `i16` value:
`(v as f32 / 32768.0).clamp(-1.0, 1.0)`. -/
def i16_to_f32_sample (v : Int) : ℚ :=
  ratClamp ((v : ℚ) / 32768) (-1) 1

/-- The `decode_f32_from_base64_i16` (`audio_utils.rs` lines 28-41). -/
def decode_f32_from_base64_i16 (b : List B64Char) : List ℚ :=
  match b64DecodeBytes b with
  | some bytes => (chunksExact2 bytes).map (fun p => i16_to_f32_sample (leBytesToI16 p.1 p.2))
  | none => []

/-! ## Client/server protocol: `services/api/src/ws/protocol.rs` -/

/-- The `ClientMessage` from `protocol.rs`. -/
inductive ClientMessage where
  | init (topic : String) (session_id : Option Nat)
  | user_message (text : String)
  | set_voice_enabled (enabled : Bool)
deriving DecidableEq

/-- The `ServerMessage` from `protocol.rs` (the `initialized` payload is
abbreviated to the state; histories do not matter to any claim). -/
inductive ServerMessage where
  | initialized (agent_state : FeynmanAgent)
  | state_update (state : FeynmanAgent)
  | error (message : String)
  | response_start
  | response_chunk (chunk : String)
  | response_end
  | transcription_update (text : String) (is_final : Bool)
  | audio_chunk (data : String)
  | ai_speaking_start
  | ai_speaking_end
deriving DecidableEq

/-! ## ReAct cycle: `services/api/src/ws/cycle.rs`

The LLM decision, the streamed chunks and the voice-bridge presence are
parameters of the model; the tool phase and the delivery phase are
translated from the code. -/

/-- A tool call requested by the LLM, with its arguments already parsed
(the `serde_json::from_str` of the argument text is outside this model). -/
inductive ToolCallReq where
  | update_subtopic_status_call (args : UpdateSubtopicStatusArgs)
  | get_session_status_call
  | conclude_session_call
  | unknown_tool (name : String)
deriving DecidableEq

/-- Stand-in for the `serde_json` rendering returned by
`get_session_status`: a deterministic read-only rendering of the state (the
real `HashMap` iteration order is unspecified; no claim depends on the
text, only on the call being read-only). -/
def serializeSubTopic (st : SubTopic) : String :=
  "\x7b name: " ++ st.name ++
    ", has_definition: " ++ toString st.has_definition ++
    ", has_mechanism: " ++ toString st.has_mechanism ++
    ", has_example: " ++ toString st.has_example ++ " \x7d"

/-- Deterministic rendering of the whole agent state; see
`serializeSubTopic`. -/
def serializeAgent (a : FeynmanAgent) : String :=
  "\x7b main_topic: " ++ a.main_topic ++
    ", covered_subtopics: " ++
      String.join ((a.covered_subtopics.map (fun p => serializeSubTopic p.2))) ++
    ", incomplete_subtopics: " ++
      String.join ((a.incomplete_subtopics.map (fun p => serializeSubTopic p.2))) ++ " \x7d"

/-- One tool invocation through the in-process MCP bridge, always yielding a
textual tool-result payload.

Modelled from the spec: the `rmcp` layer that wraps a tool handler's
`Err(String)` — and a call to a tool name the router does not know — into an
error-content tool result is library code outside `src/`; spec §4.3/§7
state that every requested call yields a result payload and that tool
errors are reported to the LLM as tool-result error payloads, recoverable
within the cycle.  The dispatch of the three known tools and the payloads
of `update_subtopic_status` are translated from `agent.rs`. -/
def callTool (agent : FeynmanAgent) (req : ToolCallReq) : FeynmanAgent × String :=
  match req with
  | ToolCallReq.update_subtopic_status_call args =>
    let r := update_subtopic_status agent args
    (r.2, match r.1 with
      | Except.ok msg => msg
      | Except.error e => e)
  | ToolCallReq.get_session_status_call => (agent, serializeAgent agent)
  | ToolCallReq.conclude_session_call => (agent, "OK. Session will be concluded.")
  | ToolCallReq.unknown_tool n => (agent, "Tool not found: " ++ n)

/-- The tool loop of `handle_react_cycle` (`cycle.rs` lines 116-137): the
requested calls are executed one after another, in request order, each
producing a result that is collected (and later appended to the history in
the same order). -/
def executeToolCalls (agent : FeynmanAgent) : List ToolCallReq → FeynmanAgent × List String
  | [] => (agent, [])
  | c :: cs =>
    let r := callTool agent c
    let rest := executeToolCalls r.1 cs
    (rest.1, r.2 :: rest.2)

/-- The `LLMAction` from `crates/core/src/llm_client.rs`. -/
inductive LLMAction where
  | textResponse (text : String)
  | toolCall (calls : List ToolCallReq)
deriving DecidableEq

/-- A message leaving the cycle's delivery phase. -/
inductive OutboundMsg where
  /-- The `send_msg(&mut sink, ..)` on the client socket. -/
  | toClient (m : ServerMessage)
  /-- The `tx.send(RealtimeClientEvent::TextToSpeak(..))` to the provider task. -/
  | toBridge (text : String)
deriving DecidableEq

/-- The delivery phase of `handle_react_cycle` (`cycle.rs` lines 180-196):
with an active voice bridge the answer goes to the bridge as text to speak;
otherwise the client receives `response_start`, one `response_chunk`
carrying the whole answer, and `response_end`. -/
def deliverFinalAnswer (bridgeActive : Bool) (answer : String) : List OutboundMsg :=
  if bridgeActive then
    [OutboundMsg.toBridge answer]
  else
    [OutboundMsg.toClient ServerMessage.response_start,
      OutboundMsg.toClient (ServerMessage.response_chunk answer),
      OutboundMsg.toClient ServerMessage.response_end]

/-- The `response_chunk` payloads among delivered messages, in order. -/
def responseChunksOf (msgs : List OutboundMsg) : List String :=
  msgs.filterMap (fun m =>
    match m with
    | OutboundMsg.toClient (ServerMessage.response_chunk c) => some c
    | _ => none)

/-- The whole cycle after the decision point (`cycle.rs` lines 110-196):
a text decision is the final answer directly; a tool decision executes the
calls and concatenates the streamed chunks of the follow-up LLM call.
Returns (post agent state, tool results, final answer, delivered
messages). -/
def runReactCycle (agent : FeynmanAgent) (action : LLMAction) (streamChunks : List String)
    (bridgeActive : Bool) : FeynmanAgent × List String × String × List OutboundMsg :=
  match action with
  | LLMAction.textResponse t => (agent, [], t, deliverFinalAnswer bridgeActive t)
  | LLMAction.toolCall calls =>
    let r := executeToolCalls agent calls
    (r.1, r.2, String.join streamChunks,
      deliverFinalAnswer bridgeActive (String.join streamChunks))

/-! ## Session loop: `services/api/src/ws/session.rs` (`run_agent_session`) -/

/-- One event the `tokio::select!` of the Active loop can wake on. -/
inductive SessionEvent where
  /-- A client WebSocket text frame; `none` models a frame that
  `serde_json::from_str::<ClientMessage>` rejects. -/
  | textFrame (msg : Option ClientMessage)
  /-- A client binary (audio) frame. -/
  | binaryFrame (data : List Nat)
  /-- A client close frame. -/
  | closeFrame
  /-- A ping or pong frame (ignored). -/
  | pingPong
  /-- A receive error on the client socket. -/
  | recvError
  /-- A state snapshot arriving on `state_update_rx`. -/
  | stateNotification (state : FeynmanAgent)
deriving DecidableEq

/-- An observable action of one loop iteration. -/
inductive SessionEffect where
  /-- The `handle_react_cycle(..)` is entered for this user text. -/
  | runCycle (text : String)
  /-- The `send_msg(.., ServerMessage::Error \x7b .. \x7d)`. -/
  | sendError (message : String)
  /-- The `handle.abort()` on a provider task. -/
  | abortBridge (id : Nat)
  /-- The `start_realtime_provider(..)` spawned a new provider task. -/
  | startBridge (id : Nat)
  /-- The `tx.send(RealtimeClientEvent::Audio(..))` to the active bridge. -/
  | forwardAudio (id : Nat) (data : List Nat)
  /-- The `warn!("Received audio data from client, but no voice provider is
  active.")`: the frame is dropped, not buffered. -/
  | warnDropAudio
  /-- The `warn!("Ignoring unexpected text message post-init.")`. -/
  | warnIgnoreText
  /-- Persist the snapshot and push `state_update` to the client. -/
  | persistAndPushState (state : FeynmanAgent)
deriving DecidableEq

/-- How the iteration leaves the loop. -/
inductive LoopControl where
  /-- The loop continues with the next `select!`. -/
  | continueLoop
  /-- The `break`: clean shutdown (close frame or socket receive error). -/
  | exitLoop
  /-- A `?` propagated an error out of `run_agent_session`: the session
  task ends with `Err`, the socket is dropped, the connection closes. -/
  | propagateError (e : String)
deriving DecidableEq

/-- Loop-carried state: the active provider task, if any, and a counter
used to give spawned tasks distinct identities in the model. -/
structure SessionLoopState where
  activeBridge : Option Nat
  nextBridgeId : Nat
deriving DecidableEq

/-- One iteration of the Active loop (`session.rs` lines 183-243).
`cycleResult` stands for the `Result` of `handle_react_cycle`, which
depends on the database, the LLM upstream and the tool transport; the `?`
on the call site is translated into `LoopControl.propagateError`. -/
def sessionStep (st : SessionLoopState) (ev : SessionEvent)
    (cycleResult : Except String Unit) :
    SessionLoopState × List SessionEffect × LoopControl :=
  match ev with
  | SessionEvent.textFrame none => (st, [], LoopControl.continueLoop)
  | SessionEvent.textFrame (some (ClientMessage.user_message t)) =>
    match cycleResult with
    | Except.ok _ => (st, [SessionEffect.runCycle t], LoopControl.continueLoop)
    | Except.error e => (st, [SessionEffect.runCycle t], LoopControl.propagateError e)
  | SessionEvent.textFrame (some (ClientMessage.set_voice_enabled true)) =>
    let aborts :=
      match st.activeBridge with
      | some b => [SessionEffect.abortBridge b]
      | none => []
    ({ activeBridge := some st.nextBridgeId, nextBridgeId := st.nextBridgeId + 1 },
      aborts ++ [SessionEffect.startBridge st.nextBridgeId], LoopControl.continueLoop)
  | SessionEvent.textFrame (some (ClientMessage.set_voice_enabled false)) =>
    let aborts :=
      match st.activeBridge with
      | some b => [SessionEffect.abortBridge b]
      | none => []
    ({ st with activeBridge := none }, aborts, LoopControl.continueLoop)
  | SessionEvent.textFrame (some (ClientMessage.init _ _)) =>
    (st, [SessionEffect.warnIgnoreText], LoopControl.continueLoop)
  | SessionEvent.binaryFrame data =>
    match st.activeBridge with
    | some b => (st, [SessionEffect.forwardAudio b data], LoopControl.continueLoop)
    | none => (st, [SessionEffect.warnDropAudio], LoopControl.continueLoop)
  | SessionEvent.closeFrame => (st, [], LoopControl.exitLoop)
  | SessionEvent.pingPong => (st, [], LoopControl.continueLoop)
  | SessionEvent.recvError => (st, [], LoopControl.exitLoop)
  | SessionEvent.stateNotification s =>
    (st, [SessionEffect.persistAndPushState s], LoopControl.continueLoop)

/-- Alive provider tasks along an effect trace: `abort` removes a task
(forced, immediate in the model), `start` adds the new one. -/
def applyBridgeEffect (alive : List Nat) : SessionEffect → List Nat
  | SessionEffect.abortBridge i => alive.erase i
  | SessionEffect.startBridge i => alive ++ [i]
  | _ => alive

/-- Alive provider tasks after a prefix of the iteration's effects. -/
def aliveAfter (alive : List Nat) (effs : List SessionEffect) : List Nat :=
  effs.foldl applyBridgeEffect alive

/-! ## Provider bridges: `ws/provider/gemini.rs` and `ws/provider/openai.rs` -/

/-- The `RealtimeClientEvent` from `provider/mod.rs`: the app events a bridge
receives on its channel. -/
inductive AppEvent where
  | audio (data : List Nat)
  | textToSpeak (text : String)
deriving DecidableEq

/-- Vendor-side occurrences relevant to the Gemini loop's setup phase and
termination (post-`Ready` content translation is not needed by any
claim and is left out of the vendor alphabet). -/
inductive GeminiVendorFrame where
  /-- A frame whose parse has `setup_complete` set. -/
  | setupComplete
  /-- Any other JSON text frame during setup (logged, ignored). -/
  | otherSetupJson
  /-- The vendor closed the socket. -/
  | closeFrame
  /-- A read error on the vendor socket. -/
  | readError
deriving DecidableEq

/-- One wake-up of the Gemini `select!` loop. -/
inductive GeminiIncoming where
  | app (e : AppEvent)
  | vendor (f : GeminiVendorFrame)
deriving DecidableEq

/-- Observable actions of one Gemini loop iteration. -/
inductive GeminiEffect where
  /-- The `warn!("Received client event before Gemini setup was complete.
  Ignoring.")` — the event is dropped. -/
  | warnDiscardPreReady
  /-- The `RealtimeInput` vendor send carrying resampled, re-encoded audio. -/
  | sendRealtimeAudio
  /-- The `ClientContent` vendor send: the model-role text turn for TTS. -/
  | sendSpeakText (text : String)
  /-- The empty user-turn `ClientContent` sent right after readiness. -/
  | sendStartUserTurn
  /-- The `error!` log for unparseable or unexpected setup traffic. -/
  | logSetupNoise
deriving DecidableEq

/-- The Gemini loop state: `is_ready` (`gemini.rs` line 168). -/
structure GeminiState where
  is_ready : Bool
deriving DecidableEq

/-- One iteration of the Gemini loop (`gemini.rs` lines 169-287): app
events before `setup_complete` are discarded with a warning; the
`setup_complete` frame flips `is_ready` and opens the user turn; app events
after readiness are translated into vendor sends; vendor close and read
errors end the loop (the returned `Bool` is `false` when the loop ends). -/
def geminiStep (st : GeminiState) (inc : GeminiIncoming) :
    GeminiState × List GeminiEffect × Bool :=
  match inc with
  | GeminiIncoming.app e =>
    if st.is_ready = false then
      (st, [GeminiEffect.warnDiscardPreReady], true)
    else
      match e with
      | AppEvent.audio _ => (st, [GeminiEffect.sendRealtimeAudio], true)
      | AppEvent.textToSpeak t => (st, [GeminiEffect.sendSpeakText t], true)
  | GeminiIncoming.vendor GeminiVendorFrame.setupComplete =>
    if st.is_ready = false then
      ({ is_ready := true }, [GeminiEffect.sendStartUserTurn], true)
    else
      (st, [], true)
  | GeminiIncoming.vendor GeminiVendorFrame.otherSetupJson =>
    (st, [GeminiEffect.logSetupNoise], true)
  | GeminiIncoming.vendor GeminiVendorFrame.closeFrame => (st, [], false)
  | GeminiIncoming.vendor GeminiVendorFrame.readError => (st, [], false)

/-- Vendor sends of the OpenAI loop. -/
inductive OpenAIEffect where
  /-- The `InputAudioBufferAppend` carrying the re-encoded audio. -/
  | sendInputAudioAppend
  /-- The `ConversationItemCreate` carrying the text to speak. -/
  | sendConversationItem (text : String)
  /-- The `ResponseCreate` that follows a spoken-text item. -/
  | sendResponseCreate
deriving DecidableEq

/-- App-event handling of the OpenAI loop (`openai.rs` lines 82-110).  The
loop is entered straight after sending the `session.update` handshake
message; it keeps no readiness flag, so every app event — including one
arriving before any vendor confirmation — is forwarded to the vendor
socket. -/
def openaiStep (e : AppEvent) : List OpenAIEffect :=
  match e with
  | AppEvent.audio _ => [OpenAIEffect.sendInputAudioAppend]
  | AppEvent.textToSpeak t =>
    [OpenAIEffect.sendConversationItem t, OpenAIEffect.sendResponseCreate]

/-! ## Concrete scenario states (spec §8: topic "Graphs", subtopics
"Intro"/"BFS") used to instantiate theorems on concrete inputs -/

/-- The session-start state of the spec §8 scenario. -/
def scenarioAgent : FeynmanAgent :=
  FeynmanAgent.new "Graphs" [SubTopic.new "Intro", SubTopic.new "BFS"]

/-- A state with "Intro" fully covered and "BFS" incomplete. -/
def coveredAgent : FeynmanAgent :=
  { main_topic := "Graphs"
    covered_subtopics := [("Intro", ⟨"Intro", true, true, true⟩)]
    incomplete_subtopics := [("BFS", SubTopic.new "BFS")] }

/-- A reachable state in which "Intro" was completed through the bridge:
two criteria preset at creation, the third covered by one call. -/
def reachedAgent : FeynmanAgent :=
  (update_subtopic_status
    (FeynmanAgent.new "Graphs" [⟨"Intro", true, true, false⟩, SubTopic.new "BFS"])
    ⟨"Intro", "example", true⟩).2

/-- A notification channel with a live subscriber and free capacity. -/
def emptyChannel : NotifyChannel :=
  ⟨[], 8, true⟩

/-- A notification channel whose 8-slot buffer is full while the subscriber
is alive (a slow subscriber). -/
def fullChannel : NotifyChannel :=
  ⟨List.replicate 8 (FeynmanAgent.new "T" []), 8, true⟩

/-! # Theorems -/

/-! ## Map lemmas -/

theorem mapLookup_insert_self (m : SubtopicMap) (k : String) (v : SubTopic) :
    mapLookup (mapInsert m k v) k = some v := by
  induction m with
  | nil => simp [mapInsert, mapLookup]
  | cons hd tl ih =>
    obtain ⟨k₀, v₀⟩ := hd
    by_cases h : k₀ = k <;> simp [mapInsert, mapLookup, h, ih]

theorem mapLookup_insert_ne (m : SubtopicMap) (k k' : String) (v : SubTopic)
    (h : k' ≠ k) : mapLookup (mapInsert m k v) k' = mapLookup m k' := by
  have hkk : ¬(k = k') := fun hh => h hh.symm
  induction m with
  | nil => simp [mapInsert, mapLookup, hkk]
  | cons hd tl ih =>
    obtain ⟨k₀, v₀⟩ := hd
    by_cases h₀ : k₀ = k
    · subst h₀
      simp [mapInsert, mapLookup, hkk]
    · simp [mapInsert, mapLookup, h₀, ih]

theorem mapLookup_none_of_not_mem_keys (m : SubtopicMap) (k : String)
    (h : k ∉ m.map Prod.fst) : mapLookup m k = none := by
  induction m with
  | nil => rfl
  | cons hd tl ih =>
    obtain ⟨k₀, v₀⟩ := hd
    simp only [List.map_cons, List.mem_cons] at h
    push_neg at h
    have hk : ¬(k₀ = k) := fun hh => h.1 hh.symm
    simp [mapLookup, hk, ih h.2]

theorem mapLookup_erase_self (m : SubtopicMap) (k : String) (hm : NodupKeys m) :
    mapLookup (mapErase m k) k = none := by
  induction m with
  | nil => rfl
  | cons hd tl ih =>
    obtain ⟨k₀, v₀⟩ := hd
    unfold NodupKeys at hm
    simp only [List.map_cons, List.nodup_cons] at hm
    by_cases h : k₀ = k
    · subst h
      simpa [mapErase] using mapLookup_none_of_not_mem_keys tl k₀ hm.1
    · simp [mapErase, mapLookup, h, ih hm.2]

theorem mapLookup_erase_ne (m : SubtopicMap) (k k' : String) (h : k' ≠ k) :
    mapLookup (mapErase m k) k' = mapLookup m k' := by
  have hkk : ¬(k = k') := fun hh => h hh.symm
  induction m with
  | nil => rfl
  | cons hd tl ih =>
    obtain ⟨k₀, v₀⟩ := hd
    by_cases h₀ : k₀ = k
    · subst h₀
      simp [mapErase, mapLookup, hkk]
    · simp [mapErase, mapLookup, h₀, ih]

theorem mapInsert_keys_subset (m : SubtopicMap) (k : String) (v : SubTopic) :
    ((mapInsert m k v).map Prod.fst) ⊆ k :: m.map Prod.fst := by
  induction m with
  | nil => simp [mapInsert]
  | cons hd tl ih =>
    obtain ⟨k₀, v₀⟩ := hd
    by_cases h : k₀ = k
    · subst h
      simp [mapInsert]
    · simp only [mapInsert, if_neg h, List.map_cons]
      intro x hx
      rcases List.mem_cons.mp hx with h₁ | h₁
      · simp [h₁]
      · rcases List.mem_cons.mp (ih h₁) with h₂ | h₂ <;> simp [h₂]

theorem mapInsert_nodupKeys (m : SubtopicMap) (k : String) (v : SubTopic)
    (hm : NodupKeys m) : NodupKeys (mapInsert m k v) := by
  induction m with
  | nil => simp [mapInsert, NodupKeys]
  | cons hd tl ih =>
    obtain ⟨k₀, v₀⟩ := hd
    unfold NodupKeys at hm ⊢
    simp only [List.map_cons, List.nodup_cons] at hm
    by_cases h : k₀ = k
    · simp only [mapInsert, if_pos h, List.map_cons, List.nodup_cons]
      subst h
      exact hm
    · simp only [mapInsert, if_neg h, List.map_cons, List.nodup_cons]
      refine ⟨fun hc => ?_, ih hm.2⟩
      rcases List.mem_cons.mp (mapInsert_keys_subset tl k v hc) with h₁ | h₁
      · exact h h₁
      · exact hm.1 h₁

theorem mapErase_keys_subset (m : SubtopicMap) (k : String) :
    ((mapErase m k).map Prod.fst) ⊆ m.map Prod.fst := by
  induction m with
  | nil => simp [mapErase]
  | cons hd tl ih =>
    obtain ⟨k₀, v₀⟩ := hd
    by_cases h : k₀ = k
    · simp only [mapErase, if_pos h, List.map_cons]
      exact fun x hx => List.mem_cons_of_mem _ hx
    · simp only [mapErase, if_neg h, List.map_cons]
      intro x hx
      rcases List.mem_cons.mp hx with h₁ | h₁
      · simp [h₁]
      · exact List.mem_cons_of_mem _ (ih h₁)

theorem mapErase_nodupKeys (m : SubtopicMap) (k : String) (hm : NodupKeys m) :
    NodupKeys (mapErase m k) := by
  induction m with
  | nil => exact hm
  | cons hd tl ih =>
    obtain ⟨k₀, v₀⟩ := hd
    unfold NodupKeys at hm ⊢
    simp only [List.map_cons, List.nodup_cons] at hm
    by_cases h : k₀ = k
    · simp only [mapErase, if_pos h]
      exact hm.2
    · simp only [mapErase, if_neg h, List.map_cons, List.nodup_cons]
      exact ⟨fun hc => hm.1 (mapErase_keys_subset tl k hc), ih hm.2⟩

theorem mapContains_insert (m : SubtopicMap) (k k' : String) (v : SubTopic) :
    mapContains (mapInsert m k v) k' = (k' = k || mapContains m k') := by
  by_cases h : k' = k
  · subst h
    simp [mapContains, mapLookup_insert_self]
  · simp [mapContains, mapLookup_insert_ne m k k' v h, h]

theorem mapContains_erase (m : SubtopicMap) (k k' : String) (hm : NodupKeys m) :
    mapContains (mapErase m k) k' = (decide (k' ≠ k) && mapContains m k') := by
  by_cases h : k' = k
  · subst h
    simp [mapContains, mapLookup_erase_self m k' hm]
  · simp [mapContains, mapLookup_erase_ne m k k' h, h]

theorem mapContains_erase_of_ne (m : SubtopicMap) (k k' : String) (h : k' ≠ k) :
    mapContains (mapErase m k) k' = mapContains m k' := by
  simp [mapContains, mapLookup_erase_ne m k k' h]

/-! ## Agent-state invariant and reachability -/

theorem mem_keys_iff_contains (m : SubtopicMap) (k : String) :
    k ∈ m.map Prod.fst ↔ mapContains m k = true := by
  induction m with
  | nil => simp [mapContains, mapLookup]
  | cons hd tl ih =>
    obtain ⟨k₀, v₀⟩ := hd
    by_cases h : k₀ = k
    · subst h
      simp [mapContains, mapLookup]
    · have hk : ¬(k = k₀) := fun hh => h hh.symm
      simp [mapContains, mapLookup, h, hk, ih]

theorem contains_of_lookup_some {m : SubtopicMap} {k : String} {v : SubTopic}
    (h : mapLookup m k = some v) : mapContains m k = true := by
  simp [mapContains, h]

theorem lookup_none_of_not_contains {m : SubtopicMap} {k : String}
    (h : mapContains m k = false) : mapLookup m k = none := by
  unfold mapContains at h
  cases hlk : mapLookup m k with
  | none => rfl
  | some v => rw [hlk] at h; simp at h

theorem new_inv (t : String) (sts : List SubTopic) : Inv (FeynmanAgent.new t sts) := by
  refine ⟨by simp [NodupKeys, FeynmanAgent.new], ?_, ?_⟩
  · have hfold : ∀ (l : List SubTopic) (m : SubtopicMap), NodupKeys m →
        NodupKeys (l.foldl (fun m st => mapInsert m st.name st) m) := by
      intro l
      induction l with
      | nil => exact fun m hm => hm
      | cons st rest ih => exact fun m hm => ih _ (mapInsert_nodupKeys m st.name st hm)
    exact hfold sts [] (by simp [NodupKeys])
  · intro k hk
    simp [FeynmanAgent.new] at hk

theorem update_inv (s : FeynmanAgent) (args : UpdateSubtopicStatusArgs) (hs : Inv s) :
    Inv (update_subtopic_status s args).2 := by
  obtain ⟨hcov, hinc, hdisj⟩ := hs
  unfold update_subtopic_status
  split
  case _ st hlk =>
    split
    case _ => exact ⟨hcov, hinc, hdisj⟩
    case _ c hcr =>
      simp only []
      split
      case _ hcomp =>
        refine ⟨mapInsert_nodupKeys _ _ _ hcov, mapErase_nodupKeys _ _ hinc, ?_⟩
        intro k hk
        rw [mem_keys_iff_contains, mapContains_erase _ _ _ hinc]
        rw [mem_keys_iff_contains, mapContains_insert] at hk
        by_cases hkn : k = args.subtopic_name
        · simp [hkn]
        · simp [hkn] at hk
          have : k ∉ s.incomplete_subtopics.map Prod.fst :=
            hdisj k ((mem_keys_iff_contains _ _).mpr hk)
          rw [mem_keys_iff_contains] at this
          simp [hkn, Bool.eq_false_iff.mpr this]
      case _ hcomp =>
        refine ⟨hcov, mapInsert_nodupKeys _ _ _ hinc, ?_⟩
        intro k hk
        rw [mem_keys_iff_contains, mapContains_insert]
        have hnotinc : k ∉ s.incomplete_subtopics.map Prod.fst := hdisj k hk
        by_cases hkn : k = args.subtopic_name
        · subst hkn
          exact absurd ((mem_keys_iff_contains _ _).mpr (contains_of_lookup_some hlk)) hnotinc
        · rw [mem_keys_iff_contains] at hnotinc
          simp [hkn, Bool.eq_false_iff.mpr hnotinc]
  case _ hlk =>
    split
    case _ => exact ⟨hcov, hinc, hdisj⟩
    case _ => exact ⟨hcov, hinc, hdisj⟩

theorem reachable_inv {s : FeynmanAgent} (h : Reachable s) : Inv s := by
  induction h with
  | init t sts => exact new_inv t sts
  | step s args _ ih => exact update_inv s args ih

theorem update_preserves_nameset (s : FeynmanAgent) (args : UpdateSubtopicStatusArgs)
    (k : String) :
    (mapContains (update_subtopic_status s args).2.covered_subtopics k ||
      mapContains (update_subtopic_status s args).2.incomplete_subtopics k) =
    (mapContains s.covered_subtopics k || mapContains s.incomplete_subtopics k) := by
  unfold update_subtopic_status
  split
  case _ st hlk =>
    split
    case _ => rfl
    case _ c hcr =>
      simp only []
      split
      case _ hcomp =>
        by_cases hkn : k = args.subtopic_name
        · subst hkn
          simp [mapContains_insert, contains_of_lookup_some hlk]
        · simp only [mapContains_insert]
          rw [mapContains_erase_of_ne _ _ _ hkn]
          simp [hkn]
      case _ hcomp =>
        by_cases hkn : k = args.subtopic_name
        · subst hkn
          simp [mapContains_insert, contains_of_lookup_some hlk]
        · simp [mapContains_insert, hkn]
  case _ hlk =>
    split
    case _ => rfl
    case _ => rfl

theorem update_completion_moves (s : FeynmanAgent) (args : UpdateSubtopicStatusArgs)
    (st : SubTopic) (c : Criterion) (hinc : NodupKeys s.incomplete_subtopics)
    (hlk : mapLookup s.incomplete_subtopics args.subtopic_name = some st)
    (hcr : criterionOf args.criterion = some c)
    (hcomp : (st.setCriterion c args.is_covered).is_complete = true) :
    (update_subtopic_status s args).1 = Except.ok (nowFullyCoveredMsg args.subtopic_name) ∧
    mapContains (update_subtopic_status s args).2.covered_subtopics args.subtopic_name = true ∧
    mapContains (update_subtopic_status s args).2.incomplete_subtopics args.subtopic_name = false := by
  unfold update_subtopic_status
  rw [hlk]
  simp [hcr, hcomp, mapContains_insert, mapContains_erase _ _ _ hinc]

theorem update_already_covered (s : FeynmanAgent) (args : UpdateSubtopicStatusArgs)
    (hnotinc : mapContains s.incomplete_subtopics args.subtopic_name = false)
    (hcov : mapContains s.covered_subtopics args.subtopic_name = true) :
    update_subtopic_status s args = (Except.ok (alreadyCoveredMsg args.subtopic_name), s) := by
  unfold update_subtopic_status
  rw [lookup_none_of_not_contains hnotinc]
  simp [hcov]

theorem update_not_found (s : FeynmanAgent) (args : UpdateSubtopicStatusArgs)
    (hnotinc : mapContains s.incomplete_subtopics args.subtopic_name = false)
    (hnotcov : mapContains s.covered_subtopics args.subtopic_name = false) :
    update_subtopic_status s args = (Except.error (notFoundMsg args.subtopic_name), s) := by
  unfold update_subtopic_status
  rw [lookup_none_of_not_contains hnotinc]
  simp [hnotcov]

theorem update_invalid_criterion (s : FeynmanAgent) (args : UpdateSubtopicStatusArgs)
    (st : SubTopic) (hlk : mapLookup s.incomplete_subtopics args.subtopic_name = some st)
    (hcr : criterionOf args.criterion = none) :
    update_subtopic_status s args = (Except.error (invalidCriterionMsg args.criterion), s) := by
  unfold update_subtopic_status
  rw [hlk]
  simp [hcr]

theorem mem_mapInsert (m : SubtopicMap) (k : String) (v : SubTopic)
    (p : String × SubTopic) (h : p ∈ mapInsert m k v) : p = (k, v) ∨ p ∈ m := by
  induction m with
  | nil => simpa [mapInsert] using h
  | cons hd tl ih =>
    obtain ⟨k₀, v₀⟩ := hd
    by_cases hk : k₀ = k
    · rw [mapInsert, if_pos hk] at h
      rcases List.mem_cons.mp h with h₁ | h₁
      · exact Or.inl h₁
      · exact Or.inr (List.mem_cons_of_mem _ h₁)
    · rw [mapInsert, if_neg hk] at h
      rcases List.mem_cons.mp h with h₁ | h₁
      · exact Or.inr (by simp [h₁])
      · rcases ih h₁ with h₂ | h₂
        · exact Or.inl h₂
        · exact Or.inr (List.mem_cons_of_mem _ h₂)

theorem mem_mapErase (m : SubtopicMap) (k : String) (p : String × SubTopic)
    (h : p ∈ mapErase m k) : p ∈ m := by
  induction m with
  | nil => exact h
  | cons hd tl ih =>
    obtain ⟨k₀, v₀⟩ := hd
    by_cases hk : k₀ = k
    · rw [mapErase, if_pos hk] at h
      exact List.mem_cons_of_mem _ h
    · rw [mapErase, if_neg hk] at h
      rcases List.mem_cons.mp h with h₁ | h₁
      · simp [h₁]
      · exact List.mem_cons_of_mem _ (ih h₁)

/-- Members inserted into `covered_subtopics` by `update_subtopic_status`
are complete: the insert happens only under the `is_complete` test. -/
theorem update_covered_members (s : FeynmanAgent) (args : UpdateSubtopicStatusArgs)
    (hall : ∀ p ∈ s.covered_subtopics, p.2.is_complete = true) :
    ∀ p ∈ (update_subtopic_status s args).2.covered_subtopics, p.2.is_complete = true := by
  unfold update_subtopic_status
  split
  case _ st hlk =>
    split
    case _ => exact hall
    case _ c hcr =>
      simp only []
      split
      case _ hcomp =>
        intro p hp
        rcases mem_mapInsert _ _ _ _ hp with h₁ | h₁
        · rw [h₁]
          exact hcomp
        · exact hall p h₁
      case _ hcomp => exact hall
  case _ hlk =>
    split
    case _ => exact hall
    case _ => exact hall

/-! ## Claim C1 -/

/-- C1: over every reachable agent state and every `update_subtopic_status`
call, a subtopic name is never in both maps (before and after the call) and
never in neither (the call preserves the set of names); the moment the
written criterion completes a subtopic it is moved from
`incomplete_subtopics` to `covered_subtopics` within that same call; and a
subtopic in `covered_subtopics` stays there — and stays out of
`incomplete_subtopics` — under any further call naming it (the call leaves
the whole state unchanged). -/
theorem C1_partition_and_completion (s : FeynmanAgent) (hs : Reachable s)
    (args : UpdateSubtopicStatusArgs) :
    (∀ k, ¬(mapContains s.covered_subtopics k = true ∧
        mapContains s.incomplete_subtopics k = true)) ∧
    (∀ k, ¬(mapContains (update_subtopic_status s args).2.covered_subtopics k = true ∧
        mapContains (update_subtopic_status s args).2.incomplete_subtopics k = true)) ∧
    (∀ k, (mapContains (update_subtopic_status s args).2.covered_subtopics k ||
          mapContains (update_subtopic_status s args).2.incomplete_subtopics k) =
        (mapContains s.covered_subtopics k || mapContains s.incomplete_subtopics k)) ∧
    (∀ st c, mapLookup s.incomplete_subtopics args.subtopic_name = some st →
        criterionOf args.criterion = some c →
        (st.setCriterion c args.is_covered).is_complete = true →
        mapContains (update_subtopic_status s args).2.covered_subtopics args.subtopic_name
            = true ∧
        mapContains (update_subtopic_status s args).2.incomplete_subtopics args.subtopic_name
            = false) ∧
    (mapContains s.covered_subtopics args.subtopic_name = true →
        (update_subtopic_status s args).2 = s ∧
        mapContains (update_subtopic_status s args).2.covered_subtopics args.subtopic_name
            = true ∧
        mapContains (update_subtopic_status s args).2.incomplete_subtopics args.subtopic_name
            = false) := by
  obtain ⟨hcov, hinc, hdisj⟩ := reachable_inv hs
  have hdisj' : ∀ k, ¬(mapContains s.covered_subtopics k = true ∧
      mapContains s.incomplete_subtopics k = true) := by
    intro k hk
    exact hdisj k ((mem_keys_iff_contains _ _).mpr hk.1)
      ((mem_keys_iff_contains _ _).mpr hk.2)
  have hnotinc : mapContains s.covered_subtopics args.subtopic_name = true →
      mapContains s.incomplete_subtopics args.subtopic_name = false := by
    intro hc
    have := hdisj _ ((mem_keys_iff_contains _ _).mpr hc)
    rw [mem_keys_iff_contains] at this
    exact Bool.eq_false_iff.mpr this
  refine ⟨hdisj', ?_, fun k => update_preserves_nameset s args k, ?_, ?_⟩
  · obtain ⟨hcov', hinc', hdisj₂⟩ := update_inv s args ⟨hcov, hinc, hdisj⟩
    intro k hk
    exact hdisj₂ k ((mem_keys_iff_contains _ _).mpr hk.1)
      ((mem_keys_iff_contains _ _).mpr hk.2)
  · intro st c hlk hcr hcomp
    exact (update_completion_moves s args st c hinc hlk hcr hcomp).2
  · intro hc
    have h := update_already_covered s args (hnotinc hc) hc
    refine ⟨by rw [h], ?_, ?_⟩
    · rw [h]
      exact hc
    · rw [h]
      exact hnotinc hc

/-- Witness for C1: the spec §8 scenario state is reachable; "Intro" is in
exactly one map, and the call that completes it moves it to
`covered_subtopics` within that call. -/
theorem C1_witness :
    (¬(mapContains scenarioAgent.covered_subtopics "Intro" = true ∧
        mapContains scenarioAgent.incomplete_subtopics "Intro" = true)) ∧
    (mapContains (update_subtopic_status
        (FeynmanAgent.new "Graphs" [⟨"Intro", true, true, false⟩, SubTopic.new "BFS"])
        ⟨"Intro", "example", true⟩).2.covered_subtopics "Intro" = true ∧
      mapContains (update_subtopic_status
        (FeynmanAgent.new "Graphs" [⟨"Intro", true, true, false⟩, SubTopic.new "BFS"])
        ⟨"Intro", "example", true⟩).2.incomplete_subtopics "Intro" = false) :=
  ⟨(C1_partition_and_completion scenarioAgent
      (Reachable.init "Graphs" [SubTopic.new "Intro", SubTopic.new "BFS"])
      ⟨"Intro", "definition", true⟩).1 "Intro",
    (C1_partition_and_completion
      (FeynmanAgent.new "Graphs" [⟨"Intro", true, true, false⟩, SubTopic.new "BFS"])
      (Reachable.init "Graphs" [⟨"Intro", true, true, false⟩, SubTopic.new "BFS"])
      ⟨"Intro", "example", true⟩).2.2.2.1 ⟨"Intro", true, true, false⟩
      Criterion.exampleCrit (by decide) (by decide) (by decide)⟩

/-! ## Claim C2 -/

/-- C2 counterexample: the claim states that a call whose criterion string
is invalid always fails with the `UnknownCriterion` error and this is
checked case-insensitively for every agent state.  But
`update_subtopic_status` consults the maps first: naming a subtopic that
sits in `covered_subtopics` with the invalid criterion "bogus" returns the
`Ok` already-covered acknowledgement — not an `UnknownCriterion` failure
(and a name in neither map likewise yields `SubtopicNotFound`, never
`UnknownCriterion`). -/
theorem C2_counterexample :
    update_subtopic_status coveredAgent ⟨"Intro", "bogus", true⟩
      = (Except.ok (alreadyCoveredMsg "Intro"), coveredAgent) := by
  decide

/-- C2 (amended): a name in neither map always fails with `SubtopicNotFound`
whatever the criterion; an invalid criterion fails with `UnknownCriterion`
only when the name sits in `incomplete_subtopics`; a name in
`covered_subtopics` is acknowledged without criterion validation; in all
three cases the state is returned unchanged — no map and no subtopic field
is mutated. -/
theorem C2_error_cases (s : FeynmanAgent) (args : UpdateSubtopicStatusArgs) :
    (mapContains s.incomplete_subtopics args.subtopic_name = false →
      mapContains s.covered_subtopics args.subtopic_name = false →
      update_subtopic_status s args = (Except.error (notFoundMsg args.subtopic_name), s)) ∧
    (∀ st, mapLookup s.incomplete_subtopics args.subtopic_name = some st →
      criterionOf args.criterion = none →
      update_subtopic_status s args
        = (Except.error (invalidCriterionMsg args.criterion), s)) ∧
    (mapContains s.incomplete_subtopics args.subtopic_name = false →
      mapContains s.covered_subtopics args.subtopic_name = true →
      update_subtopic_status s args = (Except.ok (alreadyCoveredMsg args.subtopic_name), s)) := by
  refine ⟨fun h1 h2 => update_not_found s args h1 h2,
    fun st h1 h2 => update_invalid_criterion s args st h1 h2,
    fun h1 h2 => update_already_covered s args h1 h2⟩

/-- Witness for the amended C2: a missing name fails with `SubtopicNotFound`
and an invalid criterion on an incomplete name fails with
`UnknownCriterion`, both leaving the state unchanged. -/
theorem C2_witness :
    update_subtopic_status coveredAgent ⟨"Nope", "definition", true⟩
      = (Except.error (notFoundMsg "Nope"), coveredAgent) ∧
    update_subtopic_status coveredAgent ⟨"BFS", "bogus", true⟩
      = (Except.error (invalidCriterionMsg "bogus"), coveredAgent) :=
  ⟨(C2_error_cases coveredAgent ⟨"Nope", "definition", true⟩).1 (by decide) (by decide),
    (C2_error_cases coveredAgent ⟨"BFS", "bogus", true⟩).2.1 (SubTopic.new "BFS")
      (by decide) (by decide)⟩

/-! ## Claim C10 -/

/-- C10: once a subtopic sits in `covered_subtopics` (in a reachable state),
any call naming it — with any criterion string and any `is_covered` value —
returns the already-fully-covered acknowledgement and leaves the whole
state unchanged; and the property that every member of
`covered_subtopics` is complete is preserved by the only mutating bridge
operation, so a covered subtopic can never regress to incomplete. -/
theorem C10_covered_permanent (s : FeynmanAgent) (hs : Reachable s)
    (args : UpdateSubtopicStatusArgs) :
    (mapContains s.covered_subtopics args.subtopic_name = true →
      update_subtopic_status s args = (Except.ok (alreadyCoveredMsg args.subtopic_name), s)) ∧
    ((∀ p ∈ s.covered_subtopics, p.2.is_complete = true) →
      ∀ p ∈ (update_subtopic_status s args).2.covered_subtopics, p.2.is_complete = true) := by
  obtain ⟨hcov, hinc, hdisj⟩ := reachable_inv hs
  refine ⟨fun hc => ?_, fun hall => update_covered_members s args hall⟩
  have hni : mapContains s.incomplete_subtopics args.subtopic_name = false := by
    have := hdisj _ ((mem_keys_iff_contains _ _).mpr hc)
    rw [mem_keys_iff_contains] at this
    exact Bool.eq_false_iff.mpr this
  exact update_already_covered s args hni hc

/-- Witness for C10: in the reachable state where "Intro" was completed, a
call naming "Intro" with an arbitrary criterion and `is_covered = false`
changes nothing and acknowledges. -/
theorem C10_witness :
    update_subtopic_status reachedAgent ⟨"Intro", "bogus", false⟩
      = (Except.ok (alreadyCoveredMsg "Intro"), reachedAgent) :=
  (C10_covered_permanent reachedAgent
      (Reachable.step _ _
        (Reachable.init "Graphs" [⟨"Intro", true, true, false⟩, SubTopic.new "BFS"]))
      ⟨"Intro", "bogus", false⟩).1 (by decide)

/-! ## Claim C5 -/

/-- C5 counterexample: the claim states the publish is non-blocking and
best-effort, so that a slow subscriber never blocks or delays the mutation.
But the publish is `state_tx.send(agent.clone()).await` on a bounded
channel of capacity 8: on this concrete call — a successful real mutation
(a valid criterion written for the incomplete subtopic "BFS") performed
while the subscriber is alive but its 8-slot buffer is full — the send
suspends awaiting capacity, delaying the call's return (the agent lock is
still held at that point). -/
theorem C5_counterexample :
    (update_subtopic_status_notify coveredAgent ⟨"BFS", "definition", true⟩ fullChannel).2.2
      = some SendOutcome.awaitsCapacity ∧
    channelSendReturnsImmediately fullChannel
      (update_subtopic_status coveredAgent ⟨"BFS", "definition", true⟩).2 = false := by
  constructor
  · decide
  · decide

/-- C5 (amended): every call that is not the `UnknownCriterion` early
return — in particular every successful real mutation — publishes the
post-call state snapshot on the channel; the mutation result never depends
on the channel (a failed publish is logged, not fatal); with the receiver
dropped the publish fails immediately; with a live receiver and a free
buffer slot it is enqueued (and carries exactly the post-mutation
snapshot); but with a live receiver and a full buffer the awaited send
suspends until the subscriber drains — the publish is not non-blocking. -/
theorem C5_publish_semantics (agent : FeynmanAgent) (args : UpdateSubtopicStatusArgs)
    (ch : NotifyChannel) :
    ((update_subtopic_status_notify agent args ch).1 = update_subtopic_status agent args) ∧
    (∀ st c, mapLookup agent.incomplete_subtopics args.subtopic_name = some st →
      criterionOf args.criterion = some c →
      (update_subtopic_status_notify agent args ch).2.2 ≠ none) ∧
    (ch.receiverAlive = false → notifiesOnReturn agent args = true →
      (update_subtopic_status_notify agent args ch).2.2 = some SendOutcome.droppedLogged ∧
      (update_subtopic_status_notify agent args ch).2.1 = ch) ∧
    (ch.receiverAlive = true → ch.queue.length < ch.capacity →
      notifiesOnReturn agent args = true →
      (update_subtopic_status_notify agent args ch).2.2 = some SendOutcome.delivered ∧
      (update_subtopic_status_notify agent args ch).2.1.queue
        = ch.queue ++ [(update_subtopic_status agent args).2]) ∧
    (ch.receiverAlive = true → ¬(ch.queue.length < ch.capacity) →
      notifiesOnReturn agent args = true →
      (update_subtopic_status_notify agent args ch).2.2 = some SendOutcome.awaitsCapacity) := by
  refine ⟨?_, ?_, ?_, ?_, ?_⟩
  · unfold update_subtopic_status_notify
    split <;> rfl
  · intro st c hlk hcr
    have hn : notifiesOnReturn agent args = true := by
      unfold notifiesOnReturn
      rw [hlk, hcr]
      rfl
    unfold update_subtopic_status_notify
    rw [hn]
    simp
  · intro hdead hn
    unfold update_subtopic_status_notify
    rw [hn]
    simp [channelSend, hdead]
  · intro halive hfree hn
    unfold update_subtopic_status_notify
    rw [hn]
    simp [channelSend, halive, hfree]
  · intro halive hfull hn
    unfold update_subtopic_status_notify
    rw [hn]
    simp [channelSend, halive, hfull]

/-- Witness for the amended C5: a real mutation over a live subscriber with
a free buffer delivers the post-mutation snapshot; the same mutation with
the receiver dropped is only logged. -/
theorem C5_witness :
    ((update_subtopic_status_notify coveredAgent ⟨"BFS", "mechanism", true⟩ emptyChannel).2.2
        = some SendOutcome.delivered ∧
      (update_subtopic_status_notify coveredAgent ⟨"BFS", "mechanism", true⟩ emptyChannel).2.1.queue
        = emptyChannel.queue
            ++ [(update_subtopic_status coveredAgent ⟨"BFS", "mechanism", true⟩).2]) ∧
    (update_subtopic_status_notify coveredAgent ⟨"BFS", "mechanism", true⟩
        ⟨[], 8, false⟩).2.2 = some SendOutcome.droppedLogged :=
  ⟨(C5_publish_semantics coveredAgent ⟨"BFS", "mechanism", true⟩ emptyChannel).2.2.2.1
      (by decide) (by decide) (by decide),
    ((C5_publish_semantics coveredAgent ⟨"BFS", "mechanism", true⟩ ⟨[], 8, false⟩).2.2.1
      (by decide) (by decide)).1⟩

/-! ## Claim C3 -/

/-- C3 counterexample: the claim states that a failing ReAct step aborts
only that turn — the loop continues and the client receives an `Error`
protocol message.  But `run_agent_session` invokes
`handle_react_cycle(..).await?`: on this concrete failing turn the error
propagates out of the loop (`LoopControl.propagateError`), the session task
ends and the connection closes, and the produced effects contain no
`sendError` message. -/
theorem C3_counterexample :
    sessionStep ⟨none, 0⟩
        (SessionEvent.textFrame (some (ClientMessage.user_message "hi")))
        (Except.error "upstream LLM error")
      = (⟨none, 0⟩, [SessionEffect.runCycle "hi"],
          LoopControl.propagateError "upstream LLM error") := rfl

/-- C3 (amended): when a step of the ReAct cycle fails, the `?` on the
`handle_react_cycle` call site propagates the error out of the session
loop: the session terminates (the connection closes) without any `Error`
protocol message being sent for that turn.  Malformed inbound JSON text
frames, by contrast, are silently skipped and the loop continues. -/
theorem C3_cycle_failure_propagates (st : SessionLoopState) (t e : String)
    (r : Except String Unit) :
    ((sessionStep st (SessionEvent.textFrame (some (ClientMessage.user_message t)))
        (Except.error e)).2.2 = LoopControl.propagateError e) ∧
    ((sessionStep st (SessionEvent.textFrame (some (ClientMessage.user_message t)))
        (Except.error e)).1 = st) ∧
    (∀ m, SessionEffect.sendError m ∉
      (sessionStep st (SessionEvent.textFrame (some (ClientMessage.user_message t)))
        (Except.error e)).2.1) ∧
    (sessionStep st (SessionEvent.textFrame none) r = (st, [], LoopControl.continueLoop)) := by
  refine ⟨rfl, rfl, ?_, rfl⟩
  intro m
  simp [sessionStep]

/-- Witness for the amended C3: on a concrete failing turn the loop ends
with the propagated error and no `sendError` effect is produced. -/
theorem C3_witness :
    (sessionStep ⟨none, 0⟩
        (SessionEvent.textFrame (some (ClientMessage.user_message "hola")))
        (Except.error "boom")).2.2 = LoopControl.propagateError "boom" ∧
    SessionEffect.sendError "boom" ∉
      (sessionStep ⟨none, 0⟩
        (SessionEvent.textFrame (some (ClientMessage.user_message "hola")))
        (Except.error "boom")).2.1 :=
  ⟨(C3_cycle_failure_propagates ⟨none, 0⟩ "hola" "boom" (Except.ok ())).1,
    (C3_cycle_failure_propagates ⟨none, 0⟩ "hola" "boom" (Except.ok ())).2.2.1 "boom"⟩

/-! ## Claim C9 -/

/-- C9: in the Active loop, at most one provider bridge task is alive at
every point of every iteration (toggling voice on aborts the running bridge
before starting the new one; toggling off aborts it), and a binary audio
frame arriving while no bridge is active is dropped with a warning and
never forwarded to any bridge. -/
theorem C9_single_bridge (st : SessionLoopState) (ev : SessionEvent)
    (r : Except String Unit) (hst : st.activeBridge.toList.length ≤ 1) :
    (∀ n, (aliveAfter st.activeBridge.toList ((sessionStep st ev r).2.1.take n)).length ≤ 1) ∧
    (∀ b, st.activeBridge = some b →
      (sessionStep st (SessionEvent.textFrame (some (ClientMessage.set_voice_enabled true)))
          r).2.1
        = [SessionEffect.abortBridge b, SessionEffect.startBridge st.nextBridgeId]) ∧
    (∀ b, st.activeBridge = some b →
      sessionStep st (SessionEvent.textFrame (some (ClientMessage.set_voice_enabled false))) r
        = ({ st with activeBridge := none }, [SessionEffect.abortBridge b],
            LoopControl.continueLoop)) ∧
    (∀ data, st.activeBridge = none →
      (sessionStep st (SessionEvent.binaryFrame data) r).2.1 = [SessionEffect.warnDropAudio] ∧
      ∀ b d, SessionEffect.forwardAudio b d ∉
        (sessionStep st (SessionEvent.binaryFrame data) r).2.1) := by
  obtain ⟨ab, nid⟩ := st
  refine ⟨?_, ?_, ?_, ?_⟩
  · intro n
    cases ev with
    | textFrame msg =>
      cases msg with
      | none => simpa [sessionStep, aliveAfter] using hst
      | some m =>
        cases m with
        | init topic sid =>
          cases n with
          | zero => simpa [sessionStep, aliveAfter] using hst
          | succ k => simpa [sessionStep, aliveAfter, applyBridgeEffect] using hst
        | user_message t =>
          cases r with
          | ok u =>
            cases n with
            | zero => simpa [sessionStep, aliveAfter] using hst
            | succ k => simpa [sessionStep, aliveAfter, applyBridgeEffect] using hst
          | error e =>
            cases n with
            | zero => simpa [sessionStep, aliveAfter] using hst
            | succ k => simpa [sessionStep, aliveAfter, applyBridgeEffect] using hst
        | set_voice_enabled en =>
          cases en with
          | false =>
            cases ab with
            | none =>
              cases n <;> simp [sessionStep, aliveAfter]
            | some b =>
              cases n <;> simp [sessionStep, aliveAfter, applyBridgeEffect]
          | true =>
            cases ab with
            | none =>
              cases n <;> simp [sessionStep, aliveAfter, applyBridgeEffect]
            | some b =>
              rcases n with _ | _ | k <;>
                simp [sessionStep, aliveAfter, applyBridgeEffect]
    | binaryFrame data =>
      cases ab with
      | none =>
        cases n <;> simp [sessionStep, aliveAfter, applyBridgeEffect]
      | some b =>
        cases n <;> simp [sessionStep, aliveAfter, applyBridgeEffect]
    | closeFrame => simpa [sessionStep, aliveAfter] using hst
    | pingPong => simpa [sessionStep, aliveAfter] using hst
    | recvError => simpa [sessionStep, aliveAfter] using hst
    | stateNotification s2 =>
      cases n with
      | zero => simpa [sessionStep, aliveAfter] using hst
      | succ k => simpa [sessionStep, aliveAfter, applyBridgeEffect] using hst
  · intro b hb
    simp only at hb
    subst hb
    rfl
  · intro b hb
    simp only at hb
    subst hb
    rfl
  · intro data hb
    simp only at hb
    subst hb
    refine ⟨rfl, ?_⟩
    intro b d
    simp [sessionStep]

/-- Witness for C9: toggling voice on while bridge 5 runs aborts it before
starting bridge 6 (never two alive); and audio with no active bridge is
warn-dropped. -/
theorem C9_witness :
    (aliveAfter [5]
        ((sessionStep ⟨some 5, 6⟩
            (SessionEvent.textFrame (some (ClientMessage.set_voice_enabled true)))
            (Except.ok ())).2.1.take 1)).length ≤ 1 ∧
    (sessionStep ⟨some 5, 6⟩
        (SessionEvent.textFrame (some (ClientMessage.set_voice_enabled true)))
        (Except.ok ())).2.1
      = [SessionEffect.abortBridge 5, SessionEffect.startBridge 6] ∧
    (sessionStep ⟨none, 0⟩ (SessionEvent.binaryFrame [1, 2]) (Except.ok ())).2.1
      = [SessionEffect.warnDropAudio] :=
  ⟨(C9_single_bridge ⟨some 5, 6⟩
      (SessionEvent.textFrame (some (ClientMessage.set_voice_enabled true)))
      (Except.ok ()) (by decide)).1 1,
    (C9_single_bridge ⟨some 5, 6⟩
      (SessionEvent.textFrame (some (ClientMessage.set_voice_enabled true)))
      (Except.ok ()) (by decide)).2.1 5 rfl,
    ((C9_single_bridge ⟨none, 0⟩ (SessionEvent.binaryFrame [1, 2])
      (Except.ok ()) (by decide)).2.2.2 [1, 2] rfl).1⟩

/-! ## Claim C4 -/

theorem executeToolCalls_length (agent : FeynmanAgent) (calls : List ToolCallReq) :
    (executeToolCalls agent calls).2.length = calls.length := by
  induction calls generalizing agent with
  | nil => rfl
  | cons c cs ih => simp [executeToolCalls, ih]

/-- C4: the tool loop executes the requested calls sequentially in request
order; every requested call yields exactly one result (so the results can
all be appended to the history); a failing call — here one naming an
unknown subtopic — yields an error-content result and leaves the state
unchanged instead of aborting the remaining calls; and the cycle still
completes, with the final answer being the concatenation of the follow-up
stream. -/
theorem C4_tool_loop (agent : FeynmanAgent) (calls : List ToolCallReq)
    (chunks : List String) (c : ToolCallReq) (cs : List ToolCallReq) (bridgeActive : Bool) :
    (executeToolCalls agent calls).2.length = calls.length ∧
    executeToolCalls agent (c :: cs)
      = ((executeToolCalls (callTool agent c).1 cs).1,
          (callTool agent c).2 :: (executeToolCalls (callTool agent c).1 cs).2) ∧
    (∀ args, mapContains agent.incomplete_subtopics args.subtopic_name = false →
      mapContains agent.covered_subtopics args.subtopic_name = false →
      callTool agent (ToolCallReq.update_subtopic_status_call args)
        = (agent, notFoundMsg args.subtopic_name)) ∧
    (runReactCycle agent (LLMAction.toolCall calls) chunks bridgeActive).2.2.1
      = String.join chunks := by
  refine ⟨executeToolCalls_length agent calls, rfl, ?_, rfl⟩
  intro args h1 h2
  have h := update_not_found agent args h1 h2
  simp [callTool, h]

/-- Witness for C4: the failed call on the unknown subtopic "Nope" yields
the error-content result without mutating the state, and a two-call list —
the failing call first — still yields two results. -/
theorem C4_witness :
    callTool coveredAgent
        (ToolCallReq.update_subtopic_status_call ⟨"Nope", "definition", true⟩)
      = (coveredAgent, notFoundMsg "Nope") ∧
    (executeToolCalls coveredAgent
        [ToolCallReq.update_subtopic_status_call ⟨"Nope", "definition", true⟩,
          ToolCallReq.update_subtopic_status_call ⟨"BFS", "definition", true⟩]).2.length
      = 2 :=
  ⟨(C4_tool_loop coveredAgent [] [] ToolCallReq.get_session_status_call [] false).2.2.1
      ⟨"Nope", "definition", true⟩ (by decide) (by decide),
    (C4_tool_loop coveredAgent
      [ToolCallReq.update_subtopic_status_call ⟨"Nope", "definition", true⟩,
        ToolCallReq.update_subtopic_status_call ⟨"BFS", "definition", true⟩]
      [] ToolCallReq.get_session_status_call [] false).1⟩

/-! ## Claim C7 -/

/-- C7: the final answer is delivered on exactly one path.  With an active
voice bridge it goes to the bridge as the text to speak and nothing — in
particular no `response_start`/`response_chunk`/`response_end` — is sent to
the client; without a bridge the client receives `response_start`, then the
chunk sequence whose concatenation is the final answer, then
`response_end`, and no `audio_chunk` and no bridge event is produced. -/
theorem C7_answer_delivery (answer : String) :
    (deliverFinalAnswer true answer = [OutboundMsg.toBridge answer] ∧
      (∀ sm, OutboundMsg.toClient sm ∉ deliverFinalAnswer true answer)) ∧
    (deliverFinalAnswer false answer
        = [OutboundMsg.toClient ServerMessage.response_start,
            OutboundMsg.toClient (ServerMessage.response_chunk answer),
            OutboundMsg.toClient ServerMessage.response_end] ∧
      responseChunksOf (deliverFinalAnswer false answer) = [answer] ∧
      String.join (responseChunksOf (deliverFinalAnswer false answer)) = answer ∧
      (∀ d, OutboundMsg.toClient (ServerMessage.audio_chunk d) ∉
        deliverFinalAnswer false answer) ∧
      (∀ t, OutboundMsg.toBridge t ∉ deliverFinalAnswer false answer)) := by
  refine ⟨⟨rfl, ?_⟩, rfl, rfl, ?_, ?_, ?_⟩
  · intro sm
    simp [deliverFinalAnswer]
  · show String.join [answer] = answer
    simp [String.join]
  · intro d
    simp [deliverFinalAnswer]
  · intro t
    simp [deliverFinalAnswer]

/-- Witness for C7: at the concrete answer "hello", the bridge path is a
single speak event, and the plain path's chunks concatenate to "hello" with
no audio chunk among the delivered messages. -/
theorem C7_witness :
    deliverFinalAnswer true "hello" = [OutboundMsg.toBridge "hello"] ∧
    String.join (responseChunksOf (deliverFinalAnswer false "hello")) = "hello" ∧
    OutboundMsg.toClient (ServerMessage.audio_chunk "xyz") ∉ deliverFinalAnswer false "hello" :=
  ⟨(C7_answer_delivery "hello").1.1, (C7_answer_delivery "hello").2.2.2.1,
    (C7_answer_delivery "hello").2.2.2.2.1 "xyz"⟩

/-! ## Claim C8 -/

/-- C8 counterexample: the claim states that for every provider-bridge
variant an app event received before the bridge is Ready is discarded and
never forwarded to the vendor.  The OpenAI loop keeps no readiness state at
all: it is entered straight after the `session.update` handshake send, and
this audio event — arriving before any vendor confirmation — is forwarded
to the vendor socket as an `InputAudioBufferAppend`, not discarded. -/
theorem C8_counterexample :
    openaiStep (AppEvent.audio [0, 0]) = [OpenAIEffect.sendInputAudioAppend] := rfl

/-- C8 (amended): the Gemini bridge discards every app event received
before `setup_complete` with a warning (no vendor send, state unchanged),
becomes ready exactly on the vendor's `setup_complete` (opening the user
turn), and forwards app events to the vendor only from then on; the OpenAI
bridge, by contrast, has no Ready gating and forwards every app event to
the vendor immediately, without awaiting any vendor confirmation. -/
theorem C8_ready_gating (gst : GeminiState) (e : AppEvent) (t : String)
    (d : List Nat) :
    (gst.is_ready = false →
      geminiStep gst (GeminiIncoming.app e)
        = (gst, [GeminiEffect.warnDiscardPreReady], true)) ∧
    (gst.is_ready = false →
      geminiStep gst (GeminiIncoming.vendor GeminiVendorFrame.setupComplete)
        = (⟨true⟩, [GeminiEffect.sendStartUserTurn], true)) ∧
    (gst.is_ready = true →
      geminiStep gst (GeminiIncoming.app (AppEvent.audio d))
        = (gst, [GeminiEffect.sendRealtimeAudio], true) ∧
      geminiStep gst (GeminiIncoming.app (AppEvent.textToSpeak t))
        = (gst, [GeminiEffect.sendSpeakText t], true)) ∧
    (openaiStep (AppEvent.audio d) = [OpenAIEffect.sendInputAudioAppend] ∧
      openaiStep (AppEvent.textToSpeak t)
        = [OpenAIEffect.sendConversationItem t, OpenAIEffect.sendResponseCreate]) := by
  refine ⟨?_, ?_, ?_, rfl, rfl⟩
  · intro h
    simp [geminiStep, h]
  · intro h
    simp [geminiStep, h]
  · intro h
    constructor <;> simp [geminiStep, h]

/-- Witness for the amended C8: before readiness the Gemini bridge discards
an audio event with a warning, and `setup_complete` makes it ready. -/
theorem C8_witness :
    geminiStep ⟨false⟩ (GeminiIncoming.app (AppEvent.audio [0, 0]))
      = (⟨false⟩, [GeminiEffect.warnDiscardPreReady], true) ∧
    geminiStep ⟨false⟩ (GeminiIncoming.vendor GeminiVendorFrame.setupComplete)
      = (⟨true⟩, [GeminiEffect.sendStartUserTurn], true) :=
  ⟨(C8_ready_gating ⟨false⟩ (AppEvent.audio [0, 0]) "" []).1 rfl,
    (C8_ready_gating ⟨false⟩ (AppEvent.audio [0, 0]) "" []).2.1 rfl⟩

/-! ## Claim C6: audio codec lemmas -/

theorem i16ToLeBytes_lt (v : Int) : ∀ b ∈ i16ToLeBytes v, b < 256 := by
  intro b hb
  unfold i16ToLeBytes at hb
  simp only [List.mem_cons, List.not_mem_nil, or_false] at hb
  rcases hb with h | h <;> subst h <;> omega

theorem leBytes_roundtrip (v : Int) (h1 : -32768 ≤ v) (h2 : v ≤ 32767) :
    leBytesToI16 ((v % 65536).toNat % 256) ((v % 65536).toNat / 256) = v := by
  unfold leBytesToI16
  split <;> omega

theorem b64_roundtrip : ∀ (bs : List Nat), (∀ b ∈ bs, b < 256) →
    b64DecodeBytes (b64EncodeBytes bs) = some bs
  | [], _ => rfl
  | [a], h => by
    have ha : a < 256 := h a (by simp)
    simp only [b64EncodeBytes, b64DecodeBytes, Option.some.injEq, List.cons.injEq, and_true]
    omega
  | [a, b], h => by
    have ha : a < 256 := h a (by simp)
    have hb : b < 256 := h b (by simp)
    simp only [b64EncodeBytes, b64DecodeBytes, Option.some.injEq, List.cons.injEq, and_true]
    constructor <;> omega
  | a :: b :: c :: rest, h => by
    have ha : a < 256 := h a (by simp)
    have hb : b < 256 := h b (by simp)
    have hc : c < 256 := h c (by simp)
    have ih := b64_roundtrip rest (fun x hx => h x (by simp [hx]))
    simp only [b64EncodeBytes, b64DecodeBytes, ih, Option.map_some', Option.some.injEq,
      List.cons.injEq]
    refine ⟨by omega, by omega, by omega, trivial⟩

theorem chunksExact2_flatten_pairs (ps : List (Nat × Nat)) :
    chunksExact2 ((ps.map (fun p => [p.1, p.2])).flatten) = ps := by
  induction ps with
  | nil => rfl
  | cons p rest ih =>
    simp only [List.map_cons, List.flatten_cons, List.cons_append, List.nil_append]
    rw [chunksExact2, ih]

theorem ratClamp_eq_self (q lo hi : ℚ) (h1 : lo ≤ q) (h2 : q ≤ hi) :
    ratClamp q lo hi = q := by
  unfold ratClamp
  rw [min_eq_left h2, max_eq_right h1]

theorem ratTrunc_le (q : ℚ) (b : Int) (h : q ≤ (b : ℚ)) : ratTruncToInt q ≤ b := by
  unfold ratTruncToInt
  split
  · calc Int.floor q ≤ Int.floor ((b : ℚ)) := Int.floor_le_floor h
      _ = b := Int.floor_intCast b
  · calc Int.ceil q ≤ Int.ceil ((b : ℚ)) := Int.ceil_le_ceil h
      _ = b := Int.ceil_intCast b

theorem ratTrunc_ge (q : ℚ) (b : Int) (h : (b : ℚ) ≤ q) : b ≤ ratTruncToInt q := by
  unfold ratTruncToInt
  split
  · calc b = Int.floor ((b : ℚ)) := (Int.floor_intCast b).symm
      _ ≤ Int.floor q := Int.floor_le_floor h
  · calc b = Int.ceil ((b : ℚ)) := (Int.ceil_intCast b).symm
      _ ≤ Int.ceil q := Int.ceil_le_ceil h

theorem ratTrunc_close (q : ℚ) : |((ratTruncToInt q : Int) : ℚ) - q| ≤ 1 := by
  unfold ratTruncToInt
  split
  case _ h =>
    have hf1 := Int.floor_le q
    have hf2 := Int.sub_one_lt_floor q
    rw [abs_le]
    constructor <;> linarith
  case _ h =>
    have hc1 := Int.le_ceil q
    have hc2 := Int.ceil_lt_add_one q
    rw [abs_le]
    constructor <;> linarith

theorem f32_sample_to_i16_range (x : ℚ) :
    -32768 ≤ f32_sample_to_i16 x ∧ f32_sample_to_i16 x ≤ 32767 := by
  unfold f32_sample_to_i16
  constructor
  · apply ratTrunc_ge
    unfold ratClamp
    push_cast
    exact le_max_left _ _
  · apply ratTrunc_le
    unfold ratClamp
    push_cast
    exact max_le (by norm_num) (min_le_right _ _)

theorem dequant_error (x : ℚ) (h1 : -1 ≤ x) (h2 : x ≤ 1) :
    |i16_to_f32_sample (f32_sample_to_i16 x) - x| ≤ 1 / 32768 := by
  have hr := f32_sample_to_i16_range x
  set v := f32_sample_to_i16 x with hv
  have hvlo : ((-32768 : Int) : ℚ) ≤ (v : ℚ) := by exact_mod_cast hr.1
  have hvhi : (v : ℚ) ≤ ((32767 : Int) : ℚ) := by exact_mod_cast hr.2
  have hdec : i16_to_f32_sample v = (v : ℚ) / 32768 := by
    unfold i16_to_f32_sample
    apply ratClamp_eq_self
    · rw [le_div_iff₀ (by norm_num : (0 : ℚ) < 32768)]
      push_cast at hvlo
      linarith
    · rw [div_le_iff₀ (by norm_num : (0 : ℚ) < 32768)]
      push_cast at hvhi
      linarith
  rw [hdec]
  have key : |(v : ℚ) - x * 32768| ≤ 1 := by
    by_cases hy : x * 32768 ≤ 32767
    · have hclamp : ratClamp (x * 32768) (-32768) 32767 = x * 32768 :=
        ratClamp_eq_self _ _ _ (by linarith) hy
      rw [hv]
      unfold f32_sample_to_i16
      rw [hclamp]
      exact ratTrunc_close (x * 32768)
    · push_neg at hy
      have hclamp : ratClamp (x * 32768) (-32768) 32767 = 32767 := by
        unfold ratClamp
        rw [min_eq_right (le_of_lt hy)]
        exact max_eq_right (by norm_num)
      have hvval : v = 32767 := by
        rw [hv]
        unfold f32_sample_to_i16
        rw [hclamp]
        unfold ratTruncToInt
        rw [if_pos (by norm_num : (0 : ℚ) ≤ 32767)]
        have h1 : ((32767 : ℚ)) = ((32767 : Int) : ℚ) := by norm_num
        rw [h1, Int.floor_intCast]
      rw [hvval]
      push_cast
      rw [abs_le]
      have hx32 : x * 32768 ≤ 1 * 32768 :=
        mul_le_mul_of_nonneg_right h2 (by norm_num)
      constructor <;> linarith
  have hsplit : (v : ℚ) / 32768 - x = ((v : ℚ) - x * 32768) / 32768 := by ring
  rw [hsplit, abs_div, abs_of_pos (show (0 : ℚ) < 32768 by norm_num)]
  exact (div_le_div_iff_of_pos_right (by norm_num : (0 : ℚ) < 32768)).mpr key

theorem decode_encode_eq_map (samples : List ℚ) :
    decode_f32_from_base64_i16 (encode_f32_to_base64_i16 samples)
    = samples.map (fun x => i16_to_f32_sample (f32_sample_to_i16 x)) := by
  have hexp : (fun s : ℚ => i16ToLeBytes (f32_sample_to_i16 s))
      = (fun p : Nat × Nat => [p.1, p.2]) ∘ (fun s : ℚ =>
          ((f32_sample_to_i16 s % 65536).toNat % 256,
            (f32_sample_to_i16 s % 65536).toNat / 256)) := rfl
  unfold decode_f32_from_base64_i16 encode_f32_to_base64_i16
  have hvalid : ∀ b ∈ (samples.map (fun s => i16ToLeBytes (f32_sample_to_i16 s))).flatten,
      b < 256 := by
    intro b hb
    rw [List.mem_flatten] at hb
    obtain ⟨l, hl, hbl⟩ := hb
    rw [List.mem_map] at hl
    obtain ⟨x, hx, rfl⟩ := hl
    exact i16ToLeBytes_lt _ b hbl
  rw [b64_roundtrip _ hvalid]
  dsimp only
  rw [hexp, ← List.map_map, chunksExact2_flatten_pairs, List.map_map]
  have hfun : ((fun p : Nat × Nat => i16_to_f32_sample (leBytesToI16 p.1 p.2)) ∘
        (fun s : ℚ => ((f32_sample_to_i16 s % 65536).toNat % 256,
          (f32_sample_to_i16 s % 65536).toNat / 256)))
      = fun x : ℚ => i16_to_f32_sample (f32_sample_to_i16 x) := by
    funext x
    have hrx := f32_sample_to_i16_range x
    simp only [Function.comp]
    rw [leBytes_roundtrip _ hrx.1 hrx.2]
  rw [hfun]

/-- C6: encoding a sample list with values in [-1, 1] through
`encode_f32_to_base64_i16` and decoding with `decode_f32_from_base64_i16`
yields a list of the same length whose entries differ from the originals by
at most one quantization step (1/32768); inputs above 1 are clamped to the
maximal code 32767 and inputs below -1 to the minimal code -32768 — the
encoder clamps, it never wraps. -/
theorem C6_pcm16_roundtrip (samples : List ℚ) (h : ∀ x ∈ samples, -1 ≤ x ∧ x ≤ 1) :
    List.Forall₂ (fun d x => |d - x| ≤ 1 / 32768)
      (decode_f32_from_base64_i16 (encode_f32_to_base64_i16 samples)) samples ∧
    (decode_f32_from_base64_i16 (encode_f32_to_base64_i16 samples)).length
      = samples.length ∧
    (∀ x : ℚ, 1 < x → f32_sample_to_i16 x = 32767) ∧
    (∀ x : ℚ, x < -1 → f32_sample_to_i16 x = -32768) := by
  rw [decode_encode_eq_map]
  refine ⟨?_, by simp, ?_, ?_⟩
  · induction samples with
    | nil => exact List.Forall₂.nil
    | cons x xs ih =>
      refine List.Forall₂.cons ?_ (ih (fun y hy => h y (by simp [hy])))
      exact dequant_error x (h x (by simp)).1 (h x (by simp)).2
  · intro x hx
    have hgt : (32767 : ℚ) ≤ x * 32768 := by nlinarith
    unfold f32_sample_to_i16
    have hclamp : ratClamp (x * 32768) (-32768) 32767 = 32767 := by
      unfold ratClamp
      rw [min_eq_right hgt]
      exact max_eq_right (by norm_num)
    rw [hclamp]
    unfold ratTruncToInt
    rw [if_pos (by norm_num : (0 : ℚ) ≤ 32767)]
    have h1 : ((32767 : ℚ)) = ((32767 : Int) : ℚ) := by norm_num
    rw [h1, Int.floor_intCast]
  · intro x hx
    have hlt : x * 32768 ≤ (-32768 : ℚ) := by nlinarith
    unfold f32_sample_to_i16
    have hclamp : ratClamp (x * 32768) (-32768) 32767 = -32768 := by
      unfold ratClamp
      rw [min_eq_left (by linarith : x * 32768 ≤ 32767)]
      exact max_eq_left hlt
    rw [hclamp]
    unfold ratTruncToInt
    rw [if_neg (by norm_num : ¬((0 : ℚ) ≤ -32768))]
    have h1 : ((-32768 : ℚ)) = ((-32768 : Int) : ℚ) := by norm_num
    rw [h1, Int.ceil_intCast]

/-- Witness for C6: the round trip on the concrete sample list
[-1, 0, 1] stays within one quantization step entrywise. -/
theorem C6_witness :
    List.Forall₂ (fun d x => |d - x| ≤ 1 / 32768)
      (decode_f32_from_base64_i16 (encode_f32_to_base64_i16 [(-1 : ℚ), 0, 1]))
      [(-1 : ℚ), 0, 1] :=
  (C6_pcm16_roundtrip [(-1 : ℚ), 0, 1] (by decide)).1

end Feynman
